import Mathlib

/-!
Verification development for the StarCitiSalesAgent repository.

The repository ships a React frontend (the `useConversation` hook, the
`LandingPage` form) together with a database schema and design documents.
The conversation-core components (Selection Accumulator, Catalog Index /
retrieval, Conversation Orchestrator) are specified in the design document
but their backend implementation is not part of the source tree, so those
components are modelled from the specification text; the frontend pieces
are embedded directly from the JavaScript source.
-/

namespace StarCiti

/-! ## Selection Accumulator

Modelled from the spec: the backend Selection Accumulator implementation is
not in the source tree.  §4.3 of the design document: `propose(item,
rationale)` adds the item if not already present and current size < 5 and
returns the new ordinal position; fails with `DuplicateSelection` if the
item id is already present; fails with `CapacityExceeded` when size == 5.
`remove(item_id)` removes an item if present, no-op if absent.
`snapshot()` returns the ordered list of current Selections.  Ordinals are
1-based and reflect presentation order, so the selection at list position
`i` has ordinal `i+1`. -/

structure Selection where
  itemId : Nat
  rationale : String
  deriving DecidableEq, Repr

structure Accumulator where
  sels : List Selection
  deriving DecidableEq, Repr

inductive AccError where
  | duplicateSelection
  | capacityExceeded
  deriving DecidableEq, Repr

def Accumulator.empty : Accumulator := ⟨[]⟩

def Accumulator.size (a : Accumulator) : Nat := a.sels.length

def Accumulator.contains (a : Accumulator) (itemId : Nat) : Bool :=
  a.sels.any (fun s => s.itemId == itemId)

/-- Modelled from the spec: `propose` checks the duplicate rule first (it is
listed first in §4.3), then capacity; on success it appends the selection and
returns the new 1-based ordinal position.  The state is returned together
with the outcome so that "no state change on failure" is expressible. -/
def Accumulator.propose (a : Accumulator) (itemId : Nat) (rationale : String) :
    Accumulator × Except AccError Nat :=
  if a.contains itemId then
    (a, .error .duplicateSelection)
  else if a.size == 5 then
    (a, .error .capacityExceeded)
  else
    let a' : Accumulator := ⟨a.sels ++ [⟨itemId, rationale⟩]⟩
    (a', .ok a'.sels.length)

/-- Modelled from the spec: `remove` drops the selection with the given item
id if present and is a benign no-op otherwise. -/
def Accumulator.remove (a : Accumulator) (itemId : Nat) : Accumulator :=
  ⟨a.sels.filter (fun s => s.itemId ≠ itemId)⟩

def Accumulator.snapshot (a : Accumulator) : List Selection := a.sels

/-- One `propose` call in a call sequence: the state advances, the outcome is
discarded. -/
def Accumulator.proposeStep (a : Accumulator) (c : Nat × String) : Accumulator :=
  (a.propose c.1 c.2).1

/-- Applying a whole sequence of `propose` calls to an accumulator. -/
def Accumulator.proposeRun (a : Accumulator) (cs : List (Nat × String)) : Accumulator :=
  cs.foldl Accumulator.proposeStep a

/-- The invariant of §3: at most 5 selections, no duplicated item id. -/
def Accumulator.Inv (a : Accumulator) : Prop :=
  a.sels.length ≤ 5 ∧ (a.sels.map Selection.itemId).Nodup

instance {ε α : Type} [DecidableEq ε] [DecidableEq α] :
    DecidableEq (Except ε α) := fun x y =>
  match x, y with
  | .ok a, .ok b =>
      if h : a = b then isTrue (by rw [h]) else isFalse (by simp [h])
  | .error a, .error b =>
      if h : a = b then isTrue (by rw [h]) else isFalse (by simp [h])
  | .ok _, .error _ => isFalse (by simp)
  | .error _, .ok _ => isFalse (by simp)

/-- A concrete full accumulator used to exercise `propose` at capacity. -/
def accFive : Accumulator :=
  ⟨[⟨1, "a"⟩, ⟨2, "b"⟩, ⟨3, "c"⟩, ⟨4, "d"⟩, ⟨5, "e"⟩]⟩

/-! ## useConversation hook

Embedded from `src/unnamed/part_003` (the React `useConversation` hook).
The hook's reactive state is modelled as a record; each callback becomes a
function on that record.  The backend call inside `sendMessage` is
represented by an explicit `Except` parameter giving the call's outcome, and
the two `new Date().toISOString()` timestamps are explicit parameters. -/

structure ChatMessage where
  role : String
  content : String
  timestamp : String
  deriving DecidableEq, Repr

/-- The state held by the `useConversation` hook's `useState` cells. -/
structure ConvState where
  conversationId : Option String
  messages : List ChatMessage
  isLoading : Bool
  error : Option String
  phase : String
  recommendedShips : List String
  isComplete : Bool
  deriving DecidableEq, Repr

/-- The initial values of the hook's `useState` cells. -/
def initialConvState : ConvState where
  conversationId := none
  messages := []
  isLoading := false
  error := none
  phase := "greeting"
  recommendedShips := []
  isComplete := false

/-- The payload of a successful `api.conversations.sendMessage` response, as
read by the hook (`recommended_ships` may be absent: `|| []`). -/
structure SendResponse where
  message : String
  phase : String
  recommendedShips? : Option (List String)
  isComplete : Bool
  deriving DecidableEq, Repr

/-- The hook's `sendMessage`: throws when there is no active conversation;
otherwise sets loading, clears the error, optimistically appends the user
message, then on success appends the assistant reply and updates
phase/ships/completion, and on failure drops the last (optimistic) message,
records the error and re-throws; `isLoading` is cleared in `finally`. -/
def sendMessage (s : ConvState) (message userTs assistantTs : String)
    (api : Except String SendResponse) :
    ConvState × Except String SendResponse :=
  match s.conversationId with
  | none => (s, .error "No active conversation")
  | some _ =>
    let s1 := { s with isLoading := true, error := none }
    let userMsg : ChatMessage := ⟨"user", message, userTs⟩
    let s2 := { s1 with messages := s1.messages ++ [userMsg] }
    match api with
    | .ok r =>
        let assistantMsg : ChatMessage := ⟨"assistant", r.message, assistantTs⟩
        ({ s2 with
            messages := s2.messages ++ [assistantMsg]
            phase := r.phase
            recommendedShips := r.recommendedShips?.getD []
            isComplete := r.isComplete
            isLoading := false },
         .ok r)
    | .error e =>
        ({ s2 with
            messages := s2.messages.dropLast
            error := some e
            isLoading := false },
         .error e)

/-- The hook's `resetConversation`: resets the six listed cells (it does
not touch `isLoading`). -/
def resetConversation (s : ConvState) : ConvState :=
  { s with
      conversationId := none
      messages := []
      phase := "greeting"
      recommendedShips := []
      isComplete := false
      error := none }

/-! ## LandingPage.handleSubmit

Embedded from `src/frontend/src/pages/LandingPage.jsx`.  The submit handler
validates before any network activity: an empty trimmed name or email, or an
email without an `@`, sets a validation message and returns, so the
`fetch`-and-navigate branch is only reached on valid input. -/

/-- Whitespace trimming on the underlying character list; models the
JavaScript `String.prototype.trim` used by the form handler.  (Defined over
`String.data` so that it evaluates by kernel reduction.) -/
def strTrim (s : String) : String :=
  ⟨((s.data.dropWhile Char.isWhitespace).reverse.dropWhile
      Char.isWhitespace).reverse⟩

/-- Character membership on the underlying character list; models the
JavaScript `String.prototype.includes` with a one-character needle. -/
def strContains (s : String) (c : Char) : Bool :=
  s.data.any (fun d => d == c)

/-- What one `handleSubmit` run does: either it stops with a validation
message (no request, no navigation), or it issues the start request with the
trimmed name and email. -/
inductive SubmitOutcome where
  | validationError (msg : String)
  | startRequest (userName userEmail : String)
  deriving DecidableEq, Repr

def handleSubmit (name email : String) : SubmitOutcome :=
  if strTrim name = "" ∨ strTrim email = "" then
    .validationError "Please enter both your name and email"
  else if ¬(strContains email '@') then
    .validationError "Please enter a valid email address"
  else
    .startRequest (strTrim name) (strTrim email)

/-! ## Catalog Index

Modelled from the spec: the Catalog Index backend is not in the source tree
(only `src/database/schema.sql` declares the `ship_embeddings` storage).
§4.1: `upsert(item)` inserts or replaces an Item, failing with
`ValidationError` on a dimensionality mismatch with the index's fixed width
or on a zero-magnitude vector; `query(vector, filters, limit)` returns up to
`limit` candidates sorted by descending cosine similarity with ties broken
by item id ascending, filters applied before ranking and truncation.
Vectors are rational-valued lists; similarity claims are stated against the
real-valued cosine `dot(a,b) / (|a|·|b|)`. -/

/-- A semantic vector. -/
abbrev Vec := List ℚ

def dot : Vec → Vec → ℚ
  | a :: as, b :: bs => a * b + dot as bs
  | _, _ => 0

/-- Squared Euclidean magnitude. -/
def normSq (v : Vec) : ℚ := dot v v

/-- An immutable catalog entry (§3): identifier, name, category tag, numeric
attributes, description, semantic vector. -/
structure Item where
  id : Nat
  name : String
  category : String
  price : ℚ
  crewMin : Nat
  crewMax : Nat
  cargo : ℚ
  description : String
  vector : Vec
  deriving DecidableEq, Repr

/-- A conjunction of numeric-range and categorical-equality predicates
(§4.2): price bounds, crew bounds, cargo minimum, category match; absent
constraints impose no restriction. -/
structure Filters where
  priceMin : Option ℚ := none
  priceMax : Option ℚ := none
  crewAtLeast : Option Nat := none
  crewAtMost : Option Nat := none
  cargoMin : Option ℚ := none
  category : Option String := none
  deriving DecidableEq, Repr

def optSat {α : Type} (o : Option α) (p : α → Bool) : Bool :=
  match o with
  | none => true
  | some x => p x

def matchesFilters (f : Filters) (it : Item) : Bool :=
  optSat f.priceMin (fun b => decide (b ≤ it.price)) &&
  optSat f.priceMax (fun b => decide (it.price ≤ b)) &&
  optSat f.crewAtLeast (fun b => decide (b ≤ it.crewMax)) &&
  optSat f.crewAtMost (fun b => decide (it.crewMin ≤ b)) &&
  optSat f.cargoMin (fun b => decide (b ≤ it.cargo)) &&
  optSat f.category (fun c => c == it.category)

structure CatalogIndex where
  width : Nat
  items : List Item
  deriving DecidableEq, Repr

inductive CatalogError where
  | validationError
  deriving DecidableEq, Repr

/-- Replace the item with a matching id, or append when no id matches. -/
def replaceOrInsert (items : List Item) (it : Item) : List Item :=
  if items.any (fun j => j.id == it.id) then
    items.map (fun j => if j.id == it.id then it else j)
  else
    items ++ [it]

/-- Modelled from the spec: `upsert` validates the vector's dimensionality
against the index's fixed width and rejects zero-magnitude vectors, leaving
the index unchanged on failure; otherwise it inserts or replaces the item.
The unchanged-or-updated index is returned beside the outcome. -/
def upsert (idx : CatalogIndex) (it : Item) :
    CatalogIndex × Option CatalogError :=
  if it.vector.length ≠ idx.width then
    (idx, some .validationError)
  else if normSq it.vector = 0 then
    (idx, some .validationError)
  else
    ({ idx with items := replaceOrInsert idx.items it }, none)

/-! ### Ranking and `query`

Cosine-similarity ranking for a fixed query vector `q` orders items by
`dot(q,v)/√(normSq v)` (the query's own magnitude is a common positive
factor).  To keep the ranking executable over ℚ the comparator compares
sign-adjusted squares instead of real square roots; `simKey` pairs each item
with `(dot q v, normSq v)`, falling back to the neutral key `(0, 1)` for a
zero-magnitude vector — unreachable on an index built by `upsert`, present
only so the comparator is lawful on all items. -/

def simKey (q : Vec) (it : Item) : ℚ × ℚ :=
  if normSq it.vector = 0 then (0, 1) else (dot q it.vector, normSq it.vector)

/-- Decides, as `simGT x y`, `x.1/√x.2 > y.1/√y.2` for positive `x.2`, `y.2`. -/
def simGT (x y : ℚ × ℚ) : Bool :=
  if 0 ≤ x.1 then
    if 0 ≤ y.1 then decide (y.1 ^ 2 * x.2 < x.1 ^ 2 * y.2) else true
  else
    if 0 ≤ y.1 then false else decide (x.1 ^ 2 * y.2 < y.1 ^ 2 * x.2)

/-- Decides, as `simEQ x y`, `x.1/√x.2 = y.1/√y.2` for positive `x.2`, `y.2`. -/
def simEQ (x y : ℚ × ℚ) : Bool :=
  (decide (0 ≤ x.1) == decide (0 ≤ y.1)) &&
  decide (x.1 ^ 2 * y.2 = y.1 ^ 2 * x.2)

/-- The query ordering: larger cosine similarity first, ties broken by item
id ascending. -/
def candLE (q : Vec) (a b : Item) : Bool :=
  simGT (simKey q a) (simKey q b) ||
  (simEQ (simKey q a) (simKey q b) && decide (a.id ≤ b.id))

/-- Modelled from the spec: `query` applies the filters first (predicate
pushdown), ranks the filtered items by descending similarity with the id
tiebreak, and truncates to `limit`. -/
def query (idx : CatalogIndex) (q : Vec) (f : Filters) (limit : Nat) :
    List Item :=
  ((idx.items.filter (matchesFilters f)).mergeSort (candLE q)).take limit

/-! ## Conversation Orchestrator

Modelled from the spec: the Orchestrator backend is not in the source tree.
§4.4: phases `Greeting → Discovery → Recommending → WrappingUp →
Terminal(Completed|Abandoned)`.  Greeting moves to Discovery unconditionally
on the first user turn; Discovery moves to Recommending once an actionable
preference or an explicit request arrives; in Recommending an accepted
candidate is proposed to the accumulator (moving to WrappingUp at size 5 or
on a "done" signal), a rejected candidate's id joins a session-local
exclusion set consulted by every later retrieval, and an ambiguous signal
changes nothing; a completion trigger in WrappingUp completes the session;
an idle timeout abandons any not-yet-completed session; terminal phases
admit no further mutation. -/

inductive Phase where
  | greeting | discovery | recommending | wrappingUp | completed | abandoned
  deriving DecidableEq, Repr

/-- The accept/reject/ambiguous signal parsed from a user turn. -/
inductive Signal where
  | accept (itemId : Nat) (rationale : String)
  | reject (itemId : Nat)
  | ambiguous
  deriving DecidableEq, Repr

/-- What the language-generation collaborator extracted from one user turn. -/
structure TurnInput where
  actionable : Bool
  explicitRequest : Bool
  sig : Signal
  done : Bool
  deriving DecidableEq, Repr

inductive Event where
  | turn (t : TurnInput)
  | completionTrigger
  | idleTimeout
  deriving DecidableEq, Repr

structure SessionState where
  phase : Phase
  acc : Accumulator
  excluded : List Nat
  deriving DecidableEq, Repr

def SessionState.fresh : SessionState :=
  ⟨Phase.greeting, Accumulator.empty, []⟩

/-- The turn handler, dispatching on the given phase (always invoked with
the session's current phase). -/
def stepTurnAux (p : Phase) (s : SessionState) (t : TurnInput) : SessionState :=
  match p with
  | .greeting => { s with phase := .discovery }
  | .discovery =>
      if t.actionable || t.explicitRequest then
        { s with phase := .recommending }
      else s
  | .recommending =>
      match t.sig with
      | .accept itemId rationale =>
          match s.acc.propose itemId rationale with
          | (acc', .ok _) =>
              if acc'.size == 5 || t.done then
                { s with acc := acc', phase := .wrappingUp }
              else
                { s with acc := acc' }
          | (_, .error _) => s
      | .reject itemId => { s with excluded := itemId :: s.excluded }
      | .ambiguous => s
  | .wrappingUp => s
  | .completed => s
  | .abandoned => s

def stepTurn (s : SessionState) (t : TurnInput) : SessionState :=
  stepTurnAux s.phase s t

def step (s : SessionState) (e : Event) : SessionState :=
  match e with
  | .turn t => stepTurn s t
  | .completionTrigger =>
      if s.phase = Phase.wrappingUp then { s with phase := .completed } else s
  | .idleTimeout =>
      if s.phase = Phase.completed ∨ s.phase = Phase.abandoned then s
      else { s with phase := .abandoned }

def run (s : SessionState) (evs : List Event) : SessionState :=
  evs.foldl step s

/-- The phases visited by a session, the starting phase included. -/
def phaseTrace (s : SessionState) (evs : List Event) : List Phase :=
  (evs.scanl step s).map SessionState.phase

/-- How many Greeting→Discovery transitions a phase sequence contains. -/
def gdCount : List Phase → Nat
  | a :: b :: rest =>
      (if a = Phase.greeting ∧ b = Phase.discovery then 1 else 0) +
        gdCount (b :: rest)
  | _ => 0

/-- Retrieval on behalf of a session: the session's exclusion set is applied
to the catalog before the query (spec §4.4, Reject). -/
def sessionQuery (s : SessionState) (idx : CatalogIndex) (q : Vec)
    (f : Filters) (limit : Nat) : List Item :=
  query ⟨idx.width, idx.items.filter (fun it => decide (it.id ∉ s.excluded))⟩
    q f limit

/-! ### Real-valued similarity

The spec defines the match score as the cosine `dot(a,b) / (|a|·|b|)`.  The
executable comparator above works on `(dot q v, normSq v)` pairs; here the
pairs are given their real meaning `d/√N` and the comparator is proved to
decide exactly the real ordering. -/

noncomputable def rsim (x : ℚ × ℚ) : ℝ :=
  (x.1 : ℝ) / Real.sqrt (x.2 : ℝ)

/-- Cosine similarity `dot(a,b) / (|a|·|b|)` (§4.1). -/
noncomputable def cosineSim (a b : Vec) : ℝ :=
  (dot a b : ℝ) / (Real.sqrt ((normSq a : ℚ) : ℝ) * Real.sqrt ((normSq b : ℚ) : ℝ))

/-- A valid item set: every vector has the index's width and nonzero
magnitude (both enforced by `upsert`), and item ids are unique. -/
def ValidItems (w : Nat) (items : List Item) : Prop :=
  (∀ it ∈ items, it.vector.length = w ∧ 0 < normSq it.vector) ∧
  (items.map Item.id).Nodup

/-- The spec's result order: strictly larger cosine similarity first, ties
broken by item id ascending. -/
def simRank (q : Vec) (a b : Item) : Prop :=
  cosineSim q b.vector < cosineSim q a.vector ∨
  (cosineSim q a.vector = cosineSim q b.vector ∧ a.id < b.id)

def itemA : Item := ⟨1, "Aurora", "starter", 30, 1, 1, 3, "entry", [1, 0]⟩

def itemB : Item := ⟨2, "Cutter", "starter", 45, 1, 2, 4, "utility", [0, 1]⟩

def sampleIndex : CatalogIndex := ⟨2, [itemA, itemB]⟩

lemma Accumulator.contains_iff (a : Accumulator) (itemId : Nat) :
    a.contains itemId = true ↔ itemId ∈ a.sels.map Selection.itemId := by
  unfold Accumulator.contains
  rw [List.any_eq_true]
  constructor
  · rintro ⟨s, hs, h⟩
    exact List.mem_map.mpr ⟨s, hs, by simpa using h⟩
  · intro hm
    rcases List.mem_map.mp hm with ⟨s, hs, h⟩
    exact ⟨s, hs, by simpa using h⟩

lemma Accumulator.propose_dup {a : Accumulator} {itemId : Nat} {r : String}
    (h : a.contains itemId = true) :
    a.propose itemId r = (a, .error .duplicateSelection) := by
  unfold Accumulator.propose
  rw [if_pos]
  exact h

lemma Accumulator.propose_cap {a : Accumulator} {itemId : Nat} {r : String}
    (h1 : a.contains itemId = false) (h2 : a.size = 5) :
    a.propose itemId r = (a, .error .capacityExceeded) := by
  unfold Accumulator.propose
  rw [if_neg (by simp [h1]), if_pos (by simp [h2])]

lemma Accumulator.propose_ok {a : Accumulator} {itemId : Nat} {r : String}
    (h1 : a.contains itemId = false) (h2 : a.size ≠ 5) :
    a.propose itemId r =
      (⟨a.sels ++ [⟨itemId, r⟩]⟩, .ok (a.sels.length + 1)) := by
  unfold Accumulator.propose
  rw [if_neg (by simp [h1]), if_neg (by simp [h2])]
  simp

lemma Accumulator.proposeStep_inv {a : Accumulator} (h : a.Inv) (c : Nat × String) :
    (a.proposeStep c).Inv := by
  obtain ⟨hlen, hnd⟩ := h
  by_cases hc : a.contains c.1
  · simp [Accumulator.proposeStep, Accumulator.propose_dup hc]
    exact ⟨hlen, hnd⟩
  · have hc' : a.contains c.1 = false := by simpa using hc
    by_cases hs : a.size = 5
    · simp [Accumulator.proposeStep, Accumulator.propose_cap hc' hs]
      exact ⟨hlen, hnd⟩
    · have hni : c.1 ∉ a.sels.map Selection.itemId := by
        intro hmem
        simp [(a.contains_iff c.1).mpr hmem] at hc'
      constructor
      · have hlt : a.sels.length < 5 := by
          rcases lt_or_eq_of_le hlen with h' | h'
          · exact h'
          · exact absurd h' hs
        simp [Accumulator.proposeStep, Accumulator.propose_ok hc' hs]
        omega
      · simp only [Accumulator.proposeStep, Accumulator.propose_ok hc' hs,
          List.map_append, List.map_cons, List.map_nil]
        rw [List.nodup_append]
        refine ⟨hnd, by simp, ?_⟩
        intro x hx
        simp only [List.mem_singleton]
        intro hx'
        exact hni (hx' ▸ hx)

lemma Accumulator.proposeRun_inv {a : Accumulator} (h : a.Inv)
    (cs : List (Nat × String)) : (a.proposeRun cs).Inv := by
  induction cs generalizing a with
  | nil => simpa [Accumulator.proposeRun] using h
  | cons c cs ih =>
      have := ih (Accumulator.proposeStep_inv h c)
      simpa [Accumulator.proposeRun, List.foldl_cons] using this

/-- C1: any sequence of `propose` calls on a fresh accumulator yields a
snapshot with at most 5 selections and no repeated item id. -/
theorem propose_sequence_invariant (cs : List (Nat × String)) :
    (Accumulator.proposeRun Accumulator.empty cs).snapshot.length ≤ 5 ∧
    ((Accumulator.proposeRun Accumulator.empty cs).snapshot.map
        Selection.itemId).Nodup := by
  have h0 : Accumulator.empty.Inv := by
    constructor <;> simp [Accumulator.empty]
  exact Accumulator.proposeRun_inv h0 cs

/-- C3 counterexample: on an accumulator that already holds 5 selections one
of which is item 1, `propose 1` fails with `DuplicateSelection`, not with
`CapacityExceeded` — so "fails with CapacityExceeded exactly when the
accumulator already holds 5 Selections" is false at this input. -/
theorem propose_cap_iff_fails_at_full_duplicate :
    ¬((accFive.propose 1 "again").2 = Except.error AccError.capacityExceeded ↔
        accFive.size = 5) := by
  decide

/-- C3 amended: `propose` fails with `DuplicateSelection` exactly when the
item id is already present; it fails with `CapacityExceeded` exactly when the
accumulator already holds 5 selections and the item id is not present (the
duplicate check takes precedence); on either failure the accumulator is
unchanged; otherwise it appends the item and returns its new 1-based ordinal
position. -/
theorem propose_error_spec (a : Accumulator) (itemId : Nat) (r : String) :
    ((a.propose itemId r).2 = Except.error AccError.duplicateSelection ↔
        a.contains itemId = true) ∧
    ((a.propose itemId r).2 = Except.error AccError.capacityExceeded ↔
        (a.contains itemId = false ∧ a.size = 5)) ∧
    (∀ e : AccError, (a.propose itemId r).2 = Except.error e →
        (a.propose itemId r).1 = a) ∧
    (a.contains itemId = false → a.size ≠ 5 →
        (a.propose itemId r).1.sels = a.sels ++ [⟨itemId, r⟩] ∧
        (a.propose itemId r).2 = Except.ok (a.size + 1)) := by
  by_cases hc : a.contains itemId
  · rw [Accumulator.propose_dup hc]
    refine ⟨by simp [hc], by simp [hc], fun e _ => rfl, fun h _ => ?_⟩
    rw [hc] at h
    cases h
  · have hc' : a.contains itemId = false := by simpa using hc
    by_cases hs : a.size = 5
    · rw [Accumulator.propose_cap hc' hs]
      exact ⟨by simp [hc'], by simp [hc', hs], fun e _ => rfl, fun _ h => absurd hs h⟩
    · rw [Accumulator.propose_ok hc' hs]
      refine ⟨by simp [hc'], by simp [hs], fun e h => ?_, fun _ _ => ⟨rfl, rfl⟩⟩
      cases h

/-- Witness for `propose_error_spec` at a concrete input. -/
theorem propose_error_spec_witness :
    (Accumulator.empty.propose 7 "roles").1.sels = [⟨7, "roles"⟩] ∧
    (Accumulator.empty.propose 7 "roles").2 = Except.ok 1 := by
  have h := (propose_error_spec Accumulator.empty 7 "roles").2.2.2
    (by decide) (by decide)
  exact ⟨by simpa using h.1, by simpa using h.2⟩

lemma Accumulator.remove_not_contains (a : Accumulator) (itemId : Nat) :
    (a.remove itemId).contains itemId = false := by
  unfold Accumulator.remove Accumulator.contains
  refine Bool.eq_false_iff.mpr ?_
  intro h
  rcases List.any_eq_true.mp h with ⟨s, hs, hbeq⟩
  have hne : s.itemId ≠ itemId := by simpa using List.of_mem_filter hs
  exact hne (by simpa using hbeq)

/-- C7: removing an absent item id is a no-op (the accumulator is returned
unchanged, no error is possible); and on an accumulator that does contain the
item id and holds at most 5 selections, `remove` followed by `propose` of the
same id succeeds, appending the item at the end with a freshly assigned
ordinal (the new snapshot length), not its old one. -/
theorem remove_then_propose_spec (a : Accumulator) (itemId : Nat) (r : String) :
    (a.contains itemId = false → a.remove itemId = a) ∧
    (a.contains itemId = true → a.size ≤ 5 →
      ((a.remove itemId).propose itemId r).2 =
          Except.ok ((a.remove itemId).size + 1) ∧
      ((a.remove itemId).propose itemId r).1.sels =
          (a.remove itemId).sels ++ [⟨itemId, r⟩]) := by
  constructor
  · intro h
    unfold Accumulator.remove
    have hall : ∀ s ∈ a.sels, s.itemId ≠ itemId := by
      intro s hs
      intro hEq
      have : a.contains itemId = true :=
        List.any_eq_true.mpr ⟨s, hs, by simpa using hEq⟩
      rw [this] at h
      cases h
    have : a.sels.filter (fun s => s.itemId ≠ itemId) = a.sels :=
      List.filter_eq_self.mpr (fun s hs => decide_eq_true (hall s hs))
    rw [this]
  · intro hmem hsize
    have hnc := a.remove_not_contains itemId
    have hlt : (a.remove itemId).size < 5 := by
      rcases List.any_eq_true.mp hmem with ⟨s, hs, hbeq⟩
      have hfil : (a.sels.filter (fun s => s.itemId ≠ itemId)).length <
          a.sels.length := by
        apply List.length_filter_lt_length_iff_exists.mpr
        exact ⟨s, hs, by simpa using hbeq⟩
      have : (a.remove itemId).size < a.size := hfil
      omega
    have hne : (a.remove itemId).size ≠ 5 := Nat.ne_of_lt hlt
    rw [Accumulator.propose_ok hnc hne]
    exact ⟨rfl, rfl⟩

/-- Witness for `remove_then_propose_spec` at a concrete input: removing item
1 from a two-item accumulator and re-proposing it appends it with ordinal 2. -/
theorem remove_then_propose_spec_witness :
    ((Accumulator.remove ⟨[⟨1, "a"⟩, ⟨2, "b"⟩]⟩ 1).propose 1 "r").2 =
        Except.ok 2 ∧
    ((Accumulator.remove ⟨[⟨1, "a"⟩, ⟨2, "b"⟩]⟩ 1).propose 1 "r").1.sels =
        [⟨2, "b"⟩, ⟨1, "r"⟩] := by
  have h := (remove_then_propose_spec ⟨[⟨1, "a"⟩, ⟨2, "b"⟩]⟩ 1 "r").2
    (by decide) (by decide)
  refine ⟨?_, ?_⟩
  · rw [h.1]
    decide
  · rw [h.2]
    decide

/-- C8: when the backend request of `sendMessage` fails, the optimistic user
message is rolled back so `messages` equals its pre-call value, the `phase`,
`recommendedShips` and `isComplete` cells are unchanged, the error cell is
set, and the error is re-thrown to the caller. -/
theorem sendMessage_failure_rollback (s : ConvState)
    (message userTs assistantTs e : String) (cid : String)
    (h : s.conversationId = some cid) :
    (sendMessage s message userTs assistantTs (.error e)).1.messages =
        s.messages ∧
    (sendMessage s message userTs assistantTs (.error e)).1.phase = s.phase ∧
    (sendMessage s message userTs assistantTs (.error e)).1.recommendedShips =
        s.recommendedShips ∧
    (sendMessage s message userTs assistantTs (.error e)).1.isComplete =
        s.isComplete ∧
    (sendMessage s message userTs assistantTs (.error e)).1.error = some e ∧
    (sendMessage s message userTs assistantTs (.error e)).2 = .error e := by
  unfold sendMessage
  rw [h]
  exact ⟨List.dropLast_concat, rfl, rfl, rfl, rfl, rfl⟩

/-- Witness for `sendMessage_failure_rollback` at a concrete state. -/
theorem sendMessage_failure_rollback_witness :
    (sendMessage
        { initialConvState with conversationId := some "c1", phase := "discovery" }
        "hello" "t1" "t2" (.error "boom")).1.messages = [] ∧
    (sendMessage
        { initialConvState with conversationId := some "c1", phase := "discovery" }
        "hello" "t1" "t2" (.error "boom")).1.phase = "discovery" := by
  have h := sendMessage_failure_rollback
    { initialConvState with conversationId := some "c1", phase := "discovery" }
    "hello" "t1" "t2" "boom" "c1" rfl
  exact ⟨h.1, h.2.1⟩

/-- C9: `resetConversation` always restores the six cells it manages to
their initial values — `conversationId` null, `messages` empty, `phase`
"greeting", `recommendedShips` empty, `isComplete` false, `error` null —
whatever the prior state, and it is idempotent: resetting twice equals
resetting once. -/
theorem resetConversation_spec (s : ConvState) :
    (resetConversation s).conversationId = initialConvState.conversationId ∧
    (resetConversation s).messages = initialConvState.messages ∧
    (resetConversation s).phase = initialConvState.phase ∧
    (resetConversation s).recommendedShips =
        initialConvState.recommendedShips ∧
    (resetConversation s).isComplete = initialConvState.isComplete ∧
    (resetConversation s).error = initialConvState.error ∧
    resetConversation (resetConversation s) = resetConversation s := by
  exact ⟨rfl, rfl, rfl, rfl, rfl, rfl, rfl⟩

/-- C10: for any submission whose trimmed name or trimmed email is empty, or
whose email has no `@`, `handleSubmit` produces a validation error message
and never reaches the request branch — so no network request is issued and
no navigation occurs. -/
theorem handleSubmit_invalid_no_request (name email : String)
    (h : strTrim name = "" ∨ strTrim email = "" ∨
        strContains email '@' = false) :
    (∃ m, handleSubmit name email = .validationError m) ∧
    ∀ u v, handleSubmit name email ≠ .startRequest u v := by
  have hval : ∃ m, handleSubmit name email = .validationError m := by
    unfold handleSubmit
    rcases h with h | h | h
    · exact ⟨"Please enter both your name and email", by rw [if_pos (Or.inl h)]⟩
    · exact ⟨"Please enter both your name and email", by rw [if_pos (Or.inr h)]⟩
    · by_cases h0 : strTrim name = "" ∨ strTrim email = ""
      · exact ⟨"Please enter both your name and email", by rw [if_pos h0]⟩
      · refine ⟨"Please enter a valid email address", ?_⟩
        rw [if_neg h0, if_pos]
        simp [h]
  obtain ⟨m, hm⟩ := hval
  refine ⟨⟨m, hm⟩, fun u v hcon => ?_⟩
  rw [hm] at hcon
  cases hcon

/-- Witness for `handleSubmit_invalid_no_request`: an email without `@` is
rejected before any request. -/
theorem handleSubmit_invalid_no_request_witness :
    (∃ m, handleSubmit "Ada" "not-an-email" = .validationError m) ∧
    ∀ u v, handleSubmit "Ada" "not-an-email" ≠ .startRequest u v := by
  exact handleSubmit_invalid_no_request "Ada" "not-an-email"
    (Or.inr (Or.inr (by rfl)))

/-- C6: `upsert` fails with `ValidationError`, leaving the index unchanged,
exactly when the vector's dimensionality differs from the index's fixed
width or the vector has zero magnitude; otherwise it succeeds and the new
item set contains the item, keeps every differently-keyed item, and contains
nothing else. -/
theorem upsert_validation_spec (idx : CatalogIndex) (it : Item) :
    (it.vector.length ≠ idx.width ∨ normSq it.vector = 0 →
      (upsert idx it).2 = some CatalogError.validationError ∧
      (upsert idx it).1 = idx) ∧
    (it.vector.length = idx.width → normSq it.vector ≠ 0 →
      (upsert idx it).2 = none ∧
      (upsert idx it).1.width = idx.width ∧
      it ∈ (upsert idx it).1.items ∧
      (∀ j ∈ idx.items, j.id ≠ it.id → j ∈ (upsert idx it).1.items) ∧
      (∀ j ∈ (upsert idx it).1.items,
        j = it ∨ (j ∈ idx.items ∧ j.id ≠ it.id))) := by
  constructor
  · intro h
    unfold upsert
    rcases h with h | h
    · rw [if_pos h]
      exact ⟨rfl, rfl⟩
    · by_cases hw : it.vector.length ≠ idx.width
      · rw [if_pos hw]
        exact ⟨rfl, rfl⟩
      · rw [if_neg hw, if_pos h]
        exact ⟨rfl, rfl⟩
  · intro hw hz
    have h1 : upsert idx it =
        ({ idx with items := replaceOrInsert idx.items it }, none) := by
      unfold upsert
      rw [if_neg (by simpa using hw), if_neg hz]
    rw [h1]
    refine ⟨rfl, rfl, ?_, ?_, ?_⟩
    · show it ∈ replaceOrInsert idx.items it
      unfold replaceOrInsert
      by_cases hmem : idx.items.any (fun j => j.id == it.id)
      · rw [if_pos hmem]
        rcases List.any_eq_true.mp hmem with ⟨j, hj, hbeq⟩
        refine List.mem_map.mpr ⟨j, hj, ?_⟩
        rw [if_pos hbeq]
      · rw [if_neg hmem]
        simp
    · intro j hj hne
      show j ∈ replaceOrInsert idx.items it
      unfold replaceOrInsert
      by_cases hmem : idx.items.any (fun j => j.id == it.id)
      · rw [if_pos hmem]
        refine List.mem_map.mpr ⟨j, hj, ?_⟩
        rw [if_neg (by simpa using hne)]
      · rw [if_neg hmem]
        exact List.mem_append_left _ hj
    · intro j hj
      revert hj
      show j ∈ replaceOrInsert idx.items it → _
      unfold replaceOrInsert
      by_cases hmem : idx.items.any (fun j => j.id == it.id)
      · rw [if_pos hmem]
        intro hj
        rcases List.mem_map.mp hj with ⟨k, hk, hkj⟩
        by_cases hid : (k.id == it.id)
        · rw [if_pos hid] at hkj
          exact Or.inl hkj.symm
        · rw [if_neg hid] at hkj
          refine Or.inr ⟨hkj ▸ hk, ?_⟩
          rw [← hkj]
          simpa using hid
      · rw [if_neg hmem]
        intro hj
        rcases List.mem_append.mp hj with hj | hj
        · refine Or.inr ⟨hj, ?_⟩
          intro hid
          exact hmem (List.any_eq_true.mpr ⟨j, hj, by simpa using hid⟩)
        · exact Or.inl (by simpa using hj)

/-- Witness for `upsert_validation_spec`: a concrete 2-wide index accepts a
matching nonzero vector and rejects a mismatched one. -/
theorem upsert_validation_spec_witness :
    (upsert ⟨2, []⟩
        ⟨1, "Aurora", "starter", 20, 1, 1, 3, "entry ship", [1, 0]⟩).2 =
      none ∧
    (upsert ⟨2, []⟩
        ⟨1, "Aurora", "starter", 20, 1, 1, 3, "entry ship", [1]⟩).2 =
      some CatalogError.validationError := by
  constructor
  · exact ((upsert_validation_spec ⟨2, []⟩
      ⟨1, "Aurora", "starter", 20, 1, 1, 3, "entry ship", [1, 0]⟩).2
      (by decide) (by norm_num [normSq, dot])).1
  · exact ((upsert_validation_spec ⟨2, []⟩
      ⟨1, "Aurora", "starter", 20, 1, 1, 3, "entry ship", [1]⟩).1
      (Or.inl (by decide))).1

lemma step_phase_greeting {s : SessionState} {e : Event}
    (h : (step s e).phase = Phase.greeting) : s.phase = Phase.greeting := by
  obtain ⟨p, acc, excl⟩ := s
  cases e with
  | turn t =>
      obtain ⟨ta, te, tsig, td⟩ := t
      simp only [step, stepTurn] at h
      cases p
      case greeting => rfl
      case discovery =>
        simp only [stepTurnAux] at h
        split_ifs at h <;> simp_all
      case recommending =>
        cases tsig with
        | accept itemId rationale =>
            rcases hpr : acc.propose itemId rationale with ⟨acc', out⟩
            simp only [stepTurnAux, hpr] at h
            cases out with
            | ok n =>
                simp only [] at h
                split_ifs at h <;> simp_all
            | error e => simp_all
        | reject itemId => simp_all [stepTurnAux]
        | ambiguous => simp_all [stepTurnAux]
      case wrappingUp => simp_all [stepTurnAux]
      case completed => simp_all [stepTurnAux]
      case abandoned => simp_all [stepTurnAux]
  | completionTrigger =>
      simp only [step] at h
      split_ifs at h <;> simp_all
  | idleTimeout =>
      simp only [step] at h
      split_ifs at h <;> simp_all

lemma phaseTrace_cons (s : SessionState) (e : Event) (evs : List Event) :
    phaseTrace s (e :: evs) = s.phase :: phaseTrace (step s e) evs := by
  simp [phaseTrace, List.scanl]

lemma phaseTrace_head (s : SessionState) (evs : List Event) :
    ∃ rest, phaseTrace s evs = s.phase :: rest := by
  cases evs with
  | nil => exact ⟨[], by simp [phaseTrace, List.scanl]⟩
  | cons e evs => exact ⟨phaseTrace (step s e) evs, phaseTrace_cons s e evs⟩

lemma gdCount_trace_zero (evs : List Event) :
    ∀ s : SessionState, s.phase ≠ Phase.greeting →
      gdCount (phaseTrace s evs) = 0 := by
  induction evs with
  | nil =>
      intro s _
      simp [phaseTrace, List.scanl, gdCount]
  | cons e evs ih =>
      intro s h
      have h' : (step s e).phase ≠ Phase.greeting := fun hc =>
        h (step_phase_greeting hc)
      obtain ⟨rest, hr⟩ := phaseTrace_head (step s e) evs
      rw [phaseTrace_cons, hr, gdCount]
      rw [← hr, ih (step s e) h']
      have : ¬(s.phase = Phase.greeting ∧
          (step s e).phase = Phase.discovery) := fun hc => h hc.1
      rw [if_neg this]

/-- C4: a session in Greeting moves to Discovery on any user turn, the phase
is never set back to Greeting by any step, and along any session run whose
first event is a user message the Greeting→Discovery transition happens
exactly once. -/
theorem greeting_to_discovery_once (s : SessionState) (t : TurnInput)
    (evs : List Event) (h : s.phase = Phase.greeting) :
    (step s (.turn t)).phase = Phase.discovery ∧
    (∀ s' : SessionState, ∀ e : Event,
      (step s' e).phase = Phase.greeting → s'.phase = Phase.greeting) ∧
    gdCount (phaseTrace s (.turn t :: evs)) = 1 := by
  have hstep : (step s (.turn t)).phase = Phase.discovery := by
    simp only [step, stepTurn, h, stepTurnAux]
  refine ⟨hstep, fun s' e => step_phase_greeting, ?_⟩
  obtain ⟨rest, hr⟩ := phaseTrace_head (step s (.turn t)) evs
  rw [phaseTrace_cons, hr, gdCount]
  rw [← hr, gdCount_trace_zero evs _ (by rw [hstep]; intro hc; cases hc)]
  rw [if_pos ⟨h, hstep⟩]

/-- Witness for `greeting_to_discovery_once` on a fresh session and a
concrete first message. -/
theorem greeting_to_discovery_once_witness :
    (step SessionState.fresh
        (.turn ⟨false, false, Signal.ambiguous, false⟩)).phase =
      Phase.discovery ∧
    gdCount (phaseTrace SessionState.fresh
        [.turn ⟨false, false, Signal.ambiguous, false⟩]) = 1 := by
  have h := greeting_to_discovery_once SessionState.fresh
    ⟨false, false, Signal.ambiguous, false⟩ [] rfl
  exact ⟨h.1, h.2.2⟩

lemma step_excluded_mono (s : SessionState) (e : Event) :
    s.excluded ⊆ (step s e).excluded := by
  obtain ⟨p, acc, excl⟩ := s
  cases e with
  | turn t =>
      obtain ⟨ta, te, tsig, td⟩ := t
      simp only [step, stepTurn]
      cases p
      case greeting => exact fun x hx => hx
      case discovery =>
        simp only [stepTurnAux]
        split_ifs
        · exact fun x hx => hx
        · exact fun x hx => hx
      case recommending =>
        cases tsig with
        | accept itemId rationale =>
            rcases hpr : acc.propose itemId rationale with ⟨acc', out⟩
            simp only [stepTurnAux, hpr]
            cases out with
            | ok n =>
                simp only
                split_ifs
                · exact fun x hx => hx
                · exact fun x hx => hx
            | error e => exact fun x hx => hx
        | reject itemId =>
            simp only [stepTurnAux]
            exact fun x hx => List.mem_cons_of_mem _ hx
        | ambiguous =>
            simp only [stepTurnAux]
            exact fun x hx => hx
      case wrappingUp => exact fun x hx => hx
      case completed => exact fun x hx => hx
      case abandoned => exact fun x hx => hx
  | completionTrigger =>
      simp only [step]
      split_ifs
      · exact fun x hx => hx
      · exact fun x hx => hx
  | idleTimeout =>
      simp only [step]
      split_ifs
      · exact fun x hx => hx
      · exact fun x hx => hx

lemma run_excluded_mono (evs : List Event) :
    ∀ s : SessionState, s.excluded ⊆ (run s evs).excluded := by
  induction evs with
  | nil => intro s; exact fun x hx => hx
  | cons e evs ih =>
      intro s
      have h1 := step_excluded_mono s e
      have h2 := ih (step s e)
      exact fun x hx => h2 (h1 hx)

lemma query_subset {idx : CatalogIndex} {q : Vec} {f : Filters} {k : Nat}
    {x : Item} (hx : x ∈ query idx q f k) : x ∈ idx.items := by
  have h1 : x ∈ (idx.items.filter (matchesFilters f)).mergeSort (candLE q) :=
    (List.take_sublist _ _).subset hx
  have h2 : x ∈ idx.items.filter (matchesFilters f) :=
    (List.mergeSort_perm _ _).subset h1
  exact (List.mem_filter.mp h2).1

/-- C5: once an item is rejected while the session is in Recommending, its
id never appears in the results of any later retrieval call made for that
session. -/
theorem rejected_item_never_retrieved (s : SessionState)
    (a er d : Bool) (itemId : Nat) (evs : List Event) (idx : CatalogIndex)
    (q : Vec) (f : Filters) (limit : Nat)
    (h : s.phase = Phase.recommending) :
    itemId ∉
      (sessionQuery (run (step s (.turn ⟨a, er, .reject itemId, d⟩)) evs)
          idx q f limit).map Item.id := by
  set s' := step s (.turn ⟨a, er, .reject itemId, d⟩) with hs'
  have hmem : itemId ∈ s'.excluded := by
    rw [hs']
    simp only [step, stepTurn, h, stepTurnAux]
    exact List.mem_cons_self _ _
  have hrun : itemId ∈ (run s' evs).excluded := run_excluded_mono evs s' hmem
  intro hcon
  rcases List.mem_map.mp hcon with ⟨it, hit, hid⟩
  have hsub := query_subset hit
  have := List.mem_filter.mp hsub
  have hdec : (it.id ∉ (run s' evs).excluded) := by
    have := this.2
    simpa using this
  exact hdec (hid ▸ hrun)

/-- Witness for `rejected_item_never_retrieved` on a concrete recommending
session and an empty catalog. -/
theorem rejected_item_never_retrieved_witness :
    (3 : Nat) ∉
      (sessionQuery
          (run (step ⟨Phase.recommending, Accumulator.empty, []⟩
              (.turn ⟨false, false, .reject 3, false⟩)) [])
          ⟨2, []⟩ [1, 0] {} 5).map Item.id := by
  exact rejected_item_never_retrieved
    ⟨Phase.recommending, Accumulator.empty, []⟩ false false false 3 []
    ⟨2, []⟩ [1, 0] {} 5 rfl

lemma rsim_mk (d N : ℚ) : rsim (d, N) = (d : ℝ) / Real.sqrt (N : ℝ) := rfl

lemma dot_self_nonneg (v : Vec) : 0 ≤ dot v v := by
  induction v with
  | nil => simp [dot]
  | cons a as ih =>
      have h : dot (a :: as) (a :: as) = a * a + dot as as := rfl
      rw [h]
      nlinarith [mul_self_nonneg a]

lemma normSq_nonneg (v : Vec) : 0 ≤ normSq v := dot_self_nonneg v

lemma dot_eq_zero_of_normSq_eq_zero :
    ∀ q : Vec, normSq q = 0 → ∀ v : Vec, dot q v = 0 := by
  intro q
  induction q with
  | nil =>
      intro _ v
      cases v <;> rfl
  | cons a as ih =>
      intro hq v
      have h0 : a * a + dot as as = 0 := hq
      have ha : a = 0 := by nlinarith [mul_self_nonneg a, dot_self_nonneg as]
      have has : normSq as = 0 := by
        unfold normSq
        nlinarith [mul_self_nonneg a, dot_self_nonneg as]
      cases v with
      | nil => rfl
      | cons b bs =>
          have h : dot (a :: as) (b :: bs) = a * b + dot as bs := rfl
          rw [h, ha, ih has bs]
          ring

lemma simKey_pos (q : Vec) (it : Item) : 0 < (simKey q it).2 := by
  unfold simKey
  split_ifs with h
  · norm_num
  · exact lt_of_le_of_ne (normSq_nonneg it.vector) (Ne.symm h)

lemma simGT_iff {x y : ℚ × ℚ} (hx : 0 < x.2) (hy : 0 < y.2) :
    simGT x y = true ↔ rsim y < rsim x := by
  obtain ⟨d1, N1⟩ := x
  obtain ⟨d2, N2⟩ := y
  simp only at hx hy
  have hs1 : (0 : ℝ) < Real.sqrt (N1 : ℝ) :=
    Real.sqrt_pos.mpr (by exact_mod_cast hx)
  have hs2 : (0 : ℝ) < Real.sqrt (N2 : ℝ) :=
    Real.sqrt_pos.mpr (by exact_mod_cast hy)
  have hn1 : (0 : ℝ) ≤ (N1 : ℝ) := by positivity
  have hn2 : (0 : ℝ) ≤ (N2 : ℝ) := by positivity
  rw [rsim_mk, rsim_mk]
  unfold simGT
  simp only
  by_cases hd1 : (0 : ℚ) ≤ d1
  · by_cases hd2 : (0 : ℚ) ≤ d2
    · rw [if_pos hd1, if_pos hd2, decide_eq_true_iff]
      have hA : (0 : ℝ) ≤ (d2 : ℝ) * Real.sqrt (N1 : ℝ) :=
        mul_nonneg (by exact_mod_cast hd2) hs1.le
      have hB : (0 : ℝ) ≤ (d1 : ℝ) * Real.sqrt (N2 : ℝ) :=
        mul_nonneg (by exact_mod_cast hd1) hs2.le
      have key : ((d2 : ℝ) * Real.sqrt (N1 : ℝ) < (d1 : ℝ) * Real.sqrt (N2 : ℝ)) ↔
          ((d2 : ℝ) ^ 2 * (N1 : ℝ) < (d1 : ℝ) ^ 2 * (N2 : ℝ)) := by
        rw [← pow_lt_pow_iff_left₀ hA hB two_ne_zero, mul_pow, mul_pow,
          Real.sq_sqrt hn1, Real.sq_sqrt hn2]
      rw [div_lt_div_iff₀ hs2 hs1, key]
      exact ⟨fun h => by exact_mod_cast h, fun h => by exact_mod_cast h⟩
    · rw [if_pos hd1, if_neg hd2]
      simp only [true_iff]
      have hneg : (d2 : ℝ) / Real.sqrt (N2 : ℝ) < 0 :=
        div_neg_of_neg_of_pos (by exact_mod_cast not_le.mp hd2) hs2
      have hpos : (0 : ℝ) ≤ (d1 : ℝ) / Real.sqrt (N1 : ℝ) :=
        div_nonneg (by exact_mod_cast hd1) hs1.le
      exact lt_of_lt_of_le hneg hpos
  · by_cases hd2 : (0 : ℚ) ≤ d2
    · rw [if_neg hd1, if_pos hd2]
      simp only [Bool.false_eq_true, false_iff, not_lt]
      have hneg : (d1 : ℝ) / Real.sqrt (N1 : ℝ) < 0 :=
        div_neg_of_neg_of_pos (by exact_mod_cast not_le.mp hd1) hs1
      have hpos : (0 : ℝ) ≤ (d2 : ℝ) / Real.sqrt (N2 : ℝ) :=
        div_nonneg (by exact_mod_cast hd2) hs2.le
      exact le_trans hneg.le hpos
    · rw [if_neg hd1, if_neg hd2, decide_eq_true_iff]
      have hA : (0 : ℝ) ≤ -(d1 : ℝ) * Real.sqrt (N2 : ℝ) := by
        have : (d1 : ℝ) < 0 := by exact_mod_cast not_le.mp hd1
        nlinarith [hs2.le, hs2]
      have hB : (0 : ℝ) ≤ -(d2 : ℝ) * Real.sqrt (N1 : ℝ) := by
        have : (d2 : ℝ) < 0 := by exact_mod_cast not_le.mp hd2
        nlinarith [hs1.le, hs1]
      have key : ((d2 : ℝ) / Real.sqrt (N2 : ℝ) < (d1 : ℝ) / Real.sqrt (N1 : ℝ)) ↔
          ((d1 : ℝ) ^ 2 * (N2 : ℝ) < (d2 : ℝ) ^ 2 * (N1 : ℝ)) := by
        rw [← neg_lt_neg_iff, ← neg_div, ← neg_div,
          div_lt_div_iff₀ hs1 hs2,
          ← pow_lt_pow_iff_left₀ hA hB two_ne_zero, mul_pow, mul_pow,
          Real.sq_sqrt hn1, Real.sq_sqrt hn2, neg_pow, neg_pow]
        ring_nf
      rw [key]
      exact ⟨fun h => by exact_mod_cast h, fun h => by exact_mod_cast h⟩

lemma simEQ_iff {x y : ℚ × ℚ} (hx : 0 < x.2) (hy : 0 < y.2) :
    simEQ x y = true ↔ rsim x = rsim y := by
  obtain ⟨d1, N1⟩ := x
  obtain ⟨d2, N2⟩ := y
  simp only at hx hy
  have hs1 : (0 : ℝ) < Real.sqrt (N1 : ℝ) :=
    Real.sqrt_pos.mpr (by exact_mod_cast hx)
  have hs2 : (0 : ℝ) < Real.sqrt (N2 : ℝ) :=
    Real.sqrt_pos.mpr (by exact_mod_cast hy)
  have hn1 : (0 : ℝ) ≤ (N1 : ℝ) := by positivity
  have hn2 : (0 : ℝ) ≤ (N2 : ℝ) := by positivity
  rw [rsim_mk, rsim_mk]
  unfold simEQ
  simp only [Bool.and_eq_true, beq_iff_eq, decide_eq_true_iff, decide_eq_decide]
  by_cases hd1 : (0 : ℚ) ≤ d1
  · by_cases hd2 : (0 : ℚ) ≤ d2
    · have hA : (0 : ℝ) ≤ (d1 : ℝ) * Real.sqrt (N2 : ℝ) :=
        mul_nonneg (by exact_mod_cast hd1) hs2.le
      have hB : (0 : ℝ) ≤ (d2 : ℝ) * Real.sqrt (N1 : ℝ) :=
        mul_nonneg (by exact_mod_cast hd2) hs1.le
      have key : ((d1 : ℝ) / Real.sqrt (N1 : ℝ) = (d2 : ℝ) / Real.sqrt (N2 : ℝ)) ↔
          ((d1 : ℝ) ^ 2 * (N2 : ℝ) = (d2 : ℝ) ^ 2 * (N1 : ℝ)) := by
        rw [div_eq_div_iff hs1.ne' hs2.ne',
          ← pow_left_inj hA hB two_ne_zero, mul_pow, mul_pow,
          Real.sq_sqrt hn1, Real.sq_sqrt hn2]
      rw [key]
      constructor
      · rintro ⟨-, h⟩
        exact_mod_cast h
      · intro h
        exact ⟨iff_of_true hd1 hd2, by exact_mod_cast h⟩
    · have hlt : (d2 : ℝ) / Real.sqrt (N2 : ℝ) < (d1 : ℝ) / Real.sqrt (N1 : ℝ) :=
        lt_of_lt_of_le
          (div_neg_of_neg_of_pos (by exact_mod_cast not_le.mp hd2) hs2)
          (div_nonneg (by exact_mod_cast hd1) hs1.le)
      constructor
      · rintro ⟨hs, -⟩
        exact absurd (hs.mp hd1) hd2
      · intro h
        exact absurd h.symm (ne_of_lt hlt)
  · by_cases hd2 : (0 : ℚ) ≤ d2
    · have hlt : (d1 : ℝ) / Real.sqrt (N1 : ℝ) < (d2 : ℝ) / Real.sqrt (N2 : ℝ) :=
        lt_of_lt_of_le
          (div_neg_of_neg_of_pos (by exact_mod_cast not_le.mp hd1) hs1)
          (div_nonneg (by exact_mod_cast hd2) hs2.le)
      constructor
      · rintro ⟨hs, -⟩
        exact absurd (hs.mpr hd2) hd1
      · intro h
        exact absurd h (ne_of_lt hlt)
    · have hA : (0 : ℝ) ≤ -(d1 : ℝ) * Real.sqrt (N2 : ℝ) := by
        have : (d1 : ℝ) < 0 := by exact_mod_cast not_le.mp hd1
        nlinarith [hs2.le, hs2]
      have hB : (0 : ℝ) ≤ -(d2 : ℝ) * Real.sqrt (N1 : ℝ) := by
        have : (d2 : ℝ) < 0 := by exact_mod_cast not_le.mp hd2
        nlinarith [hs1.le, hs1]
      have key : ((d1 : ℝ) / Real.sqrt (N1 : ℝ) = (d2 : ℝ) / Real.sqrt (N2 : ℝ)) ↔
          ((d1 : ℝ) ^ 2 * (N2 : ℝ) = (d2 : ℝ) ^ 2 * (N1 : ℝ)) := by
        rw [← neg_inj, ← neg_div, ← neg_div, div_eq_div_iff hs1.ne' hs2.ne',
          ← pow_left_inj hA hB two_ne_zero, mul_pow, mul_pow,
          Real.sq_sqrt hn1, Real.sq_sqrt hn2, neg_pow, neg_pow]
        ring_nf
      rw [key]
      constructor
      · rintro ⟨-, h⟩
        exact_mod_cast h
      · intro h
        exact ⟨iff_of_false hd1 hd2, by exact_mod_cast h⟩

lemma candLE_iff (q : Vec) (a b : Item) :
    candLE q a b = true ↔
      (rsim (simKey q b) < rsim (simKey q a) ∨
        (rsim (simKey q a) = rsim (simKey q b) ∧ a.id ≤ b.id)) := by
  unfold candLE
  rw [Bool.or_eq_true, Bool.and_eq_true,
    simGT_iff (simKey_pos q a) (simKey_pos q b),
    simEQ_iff (simKey_pos q a) (simKey_pos q b),
    decide_eq_true_iff]

lemma candLE_total (q : Vec) (a b : Item) :
    (candLE q a b || candLE q b a) = true := by
  rw [Bool.or_eq_true, candLE_iff, candLE_iff]
  rcases lt_trichotomy (rsim (simKey q a)) (rsim (simKey q b)) with h | h | h
  · exact Or.inr (Or.inl h)
  · rcases Nat.le_total a.id b.id with hid | hid
    · exact Or.inl (Or.inr ⟨h, hid⟩)
    · exact Or.inr (Or.inr ⟨h.symm, hid⟩)
  · exact Or.inl (Or.inl h)

lemma candLE_trans (q : Vec) (a b c : Item)
    (hab : candLE q a b = true) (hbc : candLE q b c = true) :
    candLE q a c = true := by
  rw [candLE_iff] at hab hbc ⊢
  rcases hab with h1 | ⟨h1, hid1⟩
  · rcases hbc with h2 | ⟨h2, hid2⟩
    · exact Or.inl (lt_trans h2 h1)
    · exact Or.inl (h2 ▸ h1)
  · rcases hbc with h2 | ⟨h2, hid2⟩
    · refine Or.inl ?_
      rw [h1]
      exact h2
    · exact Or.inr ⟨h1.trans h2, le_trans hid1 hid2⟩

lemma cosineSim_eq_rsim_div (q : Vec) (it : Item) (h : 0 < normSq it.vector) :
    cosineSim q it.vector =
      rsim (simKey q it) / Real.sqrt ((normSq q : ℚ) : ℝ) := by
  unfold cosineSim rsim simKey
  rw [if_neg (ne_of_gt h)]
  simp only
  rw [div_div, mul_comm]

lemma cos_lt_iff (q : Vec) {a b : Item} (ha : 0 < normSq a.vector)
    (hb : 0 < normSq b.vector) :
    cosineSim q a.vector < cosineSim q b.vector ↔
      rsim (simKey q a) < rsim (simKey q b) := by
  by_cases hq : normSq q = 0
  · have hda : dot q a.vector = 0 := dot_eq_zero_of_normSq_eq_zero q hq a.vector
    have hdb : dot q b.vector = 0 := dot_eq_zero_of_normSq_eq_zero q hq b.vector
    have e1 : cosineSim q a.vector = 0 := by simp [cosineSim, hda]
    have e2 : cosineSim q b.vector = 0 := by simp [cosineSim, hdb]
    have e3 : rsim (simKey q a) = 0 := by simp [rsim, simKey, ha.ne', hda]
    have e4 : rsim (simKey q b) = 0 := by simp [rsim, simKey, hb.ne', hdb]
    rw [e1, e2, e3, e4]
  · have hqpos : (0 : ℝ) < Real.sqrt ((normSq q : ℚ) : ℝ) := by
      refine Real.sqrt_pos.mpr ?_
      have h0 : 0 < normSq q := lt_of_le_of_ne (normSq_nonneg q) (Ne.symm hq)
      exact_mod_cast h0
    rw [cosineSim_eq_rsim_div q a ha, cosineSim_eq_rsim_div q b hb,
      div_lt_div_iff_of_pos_right hqpos]

lemma cos_eq_iff (q : Vec) {a b : Item} (ha : 0 < normSq a.vector)
    (hb : 0 < normSq b.vector) :
    cosineSim q a.vector = cosineSim q b.vector ↔
      rsim (simKey q a) = rsim (simKey q b) := by
  by_cases hq : normSq q = 0
  · have hda : dot q a.vector = 0 := dot_eq_zero_of_normSq_eq_zero q hq a.vector
    have hdb : dot q b.vector = 0 := dot_eq_zero_of_normSq_eq_zero q hq b.vector
    have e1 : cosineSim q a.vector = 0 := by simp [cosineSim, hda]
    have e2 : cosineSim q b.vector = 0 := by simp [cosineSim, hdb]
    have e3 : rsim (simKey q a) = 0 := by simp [rsim, simKey, ha.ne', hda]
    have e4 : rsim (simKey q b) = 0 := by simp [rsim, simKey, hb.ne', hdb]
    rw [e1, e2, e3, e4]
  · have hqpos : (0 : ℝ) < Real.sqrt ((normSq q : ℚ) : ℝ) := by
      refine Real.sqrt_pos.mpr ?_
      have h0 : 0 < normSq q := lt_of_le_of_ne (normSq_nonneg q) (Ne.symm hq)
      exact_mod_cast h0
    rw [cosineSim_eq_rsim_div q a ha, cosineSim_eq_rsim_div q b hb,
      div_eq_div_iff hqpos.ne' hqpos.ne']
    exact ⟨fun h => mul_right_cancel₀ hqpos.ne' h, fun h => by rw [h]⟩

/-- C2: on a valid item set, `query` returns at most `limit` items, all
drawn from the catalog and satisfying every supplied filter, in
non-increasing cosine-similarity order with ties broken by ascending id;
any filtered item left out loses (weakly) to everything returned and can
only be left out when the result is full — so the result is the best
`limit` filtered matches; and when nothing satisfies the filters the result
is the empty list, not an error. -/
theorem query_spec (idx : CatalogIndex) (q : Vec) (f : Filters) (limit : Nat)
    (hv : ValidItems idx.width idx.items) :
    (query idx q f limit).length ≤ limit ∧
    (∀ x ∈ query idx q f limit, x ∈ idx.items ∧ matchesFilters f x = true) ∧
    (query idx q f limit).Pairwise (simRank q) ∧
    (∀ y ∈ idx.items, matchesFilters f y = true → y ∉ query idx q f limit →
      (query idx q f limit).length = limit ∧
      ∀ x ∈ query idx q f limit,
        cosineSim q y.vector ≤ cosineSim q x.vector) ∧
    ((∀ x ∈ idx.items, matchesFilters f x = false) →
      query idx q f limit = []) := by
  obtain ⟨hval, hnodup⟩ := hv
  set filtered := idx.items.filter (matchesFilters f) with hfil
  set sorted := filtered.mergeSort (candLE q) with hsort
  have hq : query idx q f limit = sorted.take limit := rfl
  have hperm : sorted.Perm filtered := List.mergeSort_perm filtered (candLE q)
  have hmemsorted : ∀ x ∈ sorted, x ∈ idx.items ∧ matchesFilters f x = true := by
    intro x hx
    have hxf : x ∈ filtered := hperm.subset hx
    exact ⟨(List.mem_filter.mp hxf).1, (List.mem_filter.mp hxf).2⟩
  have hsub : ∀ x ∈ sorted.take limit, x ∈ sorted := fun x hx =>
    (List.take_sublist _ _).subset hx
  have hpair : sorted.Pairwise (fun a b => candLE q a b = true) :=
    List.sorted_mergeSort (fun a b c hab hbc => candLE_trans q a b c hab hbc)
      (fun a b => candLE_total q a b) filtered
  refine ⟨?_, ?_, ?_, ?_, ?_⟩
  · rw [hq]
    exact List.length_take_le _ _
  · intro x hx
    exact hmemsorted x (hsub x (hq ▸ hx))
  · have hne : sorted.Pairwise (fun a b : Item => a.id ≠ b.id) := by
      have h0 : idx.items.Pairwise (fun a b : Item => a.id ≠ b.id) :=
        List.pairwise_map.mp hnodup
      have h1 : filtered.Pairwise (fun a b : Item => a.id ≠ b.id) :=
        List.Pairwise.sublist (List.filter_sublist _) h0
      exact (hperm.pairwise_iff (fun h => h.symm)).mpr h1
    have hpt : (sorted.take limit).Pairwise
        (fun a b => candLE q a b = true ∧ a.id ≠ b.id) :=
      List.Pairwise.sublist (List.take_sublist _ _) (hpair.and hne)
    rw [hq]
    refine hpt.imp_of_mem ?_
    intro a b hma hmb hab
    obtain ⟨hle, hiddiff⟩ := hab
    have hha : 0 < normSq a.vector := (hval a (hmemsorted a (hsub a hma)).1).2
    have hhb : 0 < normSq b.vector := (hval b (hmemsorted b (hsub b hmb)).1).2
    rcases (candLE_iff q a b).mp hle with hlt | ⟨heq, hidle⟩
    · exact Or.inl ((cos_lt_iff q hhb hha).mpr hlt)
    · exact Or.inr ⟨(cos_eq_iff q hha hhb).mpr heq,
        lt_of_le_of_ne hidle hiddiff⟩
  · intro y hy hyf hynot
    rw [hq] at hynot
    have hyfil : y ∈ filtered := List.mem_filter.mpr ⟨hy, hyf⟩
    have hysorted : y ∈ sorted := hperm.mem_iff.mpr hyfil
    have hsplit : sorted.take limit ++ sorted.drop limit = sorted :=
      List.take_append_drop _ _
    have hydrop : y ∈ sorted.drop limit := by
      rcases List.mem_append.mp (by rw [hsplit]; exact hysorted) with h | h
      · exact absurd h hynot
      · exact h
    have hlen : limit < sorted.length := by
      by_contra hle
      push_neg at hle
      have hnil : sorted.drop limit = [] := List.drop_eq_nil_iff.mpr hle
      rw [hnil] at hydrop
      cases hydrop
    constructor
    · rw [hq, List.length_take]
      exact min_eq_left hlen.le
    · intro x hx
      rw [hq] at hx
      have hxentire : x ∈ sorted := hsub x hx
      have hpair' : (sorted.take limit ++ sorted.drop limit).Pairwise
          (fun a b => candLE q a b = true) := by
        rw [hsplit]
        exact hpair
      have hcross := (List.pairwise_append.mp hpair').2.2
      have hcand : candLE q x y = true := hcross x hx y hydrop
      have hhx : 0 < normSq x.vector := (hval x (hmemsorted x hxentire).1).2
      have hhy : 0 < normSq y.vector := (hval y hy).2
      rcases (candLE_iff q x y).mp hcand with hlt | ⟨heq, -⟩
      · exact le_of_lt ((cos_lt_iff q hhy hhx).mpr hlt)
      · exact le_of_eq ((cos_eq_iff q hhx hhy).mpr heq).symm
  · intro hnone
    have hempty : filtered = [] :=
      List.filter_eq_nil_iff.mpr (fun a ha => by rw [hnone a ha]; simp)
    rw [hq, hsort, hempty, List.mergeSort_nil, List.take_nil]

/-- Witness for `query_spec` on a concrete valid two-item index. -/
theorem query_spec_witness :
    ValidItems sampleIndex.width sampleIndex.items ∧
    (query sampleIndex [1, 0] {} 1).length ≤ 1 := by
  have hv : ValidItems sampleIndex.width sampleIndex.items := by
    constructor
    · intro it hit
      simp only [sampleIndex, List.mem_cons, List.not_mem_nil, or_false] at hit
      rcases hit with rfl | rfl
      · exact ⟨by decide, by norm_num [itemA, normSq, dot]⟩
      · exact ⟨by decide, by norm_num [itemB, normSq, dot]⟩
    · simp [sampleIndex, itemA, itemB]
  exact ⟨hv, (query_spec sampleIndex [1, 0] {} 1 hv).1⟩

end StarCiti
